import Mathlib

/-!
Verification of the `vulns` analyzer (Go).

This file gives a shallow embedding of the core of the repository:
the version normalizer (`GoTagToSemver` in package `osvutil`), the
catalog filter (`filterOSVEntries` / `normalizeOSVEntries`), and the
per-package reachability engine (`run`, `findPath`, `succs`,
`isDirectlyVulnerable` in package `analysis`), together with theorems
settling the specification claims.

Conventions used by the embedding:
  * Go strings are Lean `String`s; byte-level operations are modelled
    on `String.data` (the character list). The Go sources only handle
    ASCII metacharacters (`.`, `/`, `:`, `|`, tab, space), for which
    runes and bytes coincide.
  * Go maps with deterministic intent are modelled as association
    lists; map iteration order, which Go randomizes, is the list
    order, so it can be varied explicitly where a claim is about
    iteration-order independence.
  * Fallible operations (a Go panic) are modelled with `Option`,
    `none` standing for the panic.
  * The Go recursion in `findPath` is modelled with explicit fuel;
    the termination theorem shows the result is stable once the fuel
    exceeds the number of unvisited graph nodes.
-/

/-! ## String utilities (strings.TrimSpace, strings.Fields, strings.Cut, ...) -/

/-- Go `unicode.IsSpace` restricted to the Latin-1 characters the
sources ever meet: space, tab, newline, vertical tab, form feed,
carriage return, NEL and NBSP. -/
def goIsSpace (c : Char) : Bool :=
  c == ' ' || c == '\t' || c == '\n' || c == '\x0b' || c == '\x0c' ||
  c == '\r' || c == '\x85' || c == '\xa0'

/-- Go `strings.TrimSpace`: drop white space at both ends. -/
def goTrimSpace (s : String) : String :=
  String.mk (((s.data.dropWhile goIsSpace).reverse.dropWhile goIsSpace).reverse)

/-- Go `strings.Replace(s, "\n", " ", -1)`: the pattern is a single
character, so the replacement is a character map. -/
def goReplaceNewlines (s : String) : String :=
  String.mk (s.data.map (fun c => if c = '\n' then ' ' else c))

/-- Helper for Go `strings.Fields`: split a character list around runs
of white space, accumulating the current (reversed) field. -/
def goFieldsAux : List Char → List Char → List (List Char)
  | [], acc => if acc = [] then [] else [acc.reverse]
  | c :: cs, acc =>
    if goIsSpace c then
      if acc = [] then goFieldsAux cs []
      else acc.reverse :: goFieldsAux cs []
    else goFieldsAux cs (c :: acc)

/-- Go `strings.Fields`. -/
def goFields (s : String) : List (List Char) := goFieldsAux s.data []

/-- The `before` component of Go `strings.Cut(s, sep)` for a
one-character separator: the prefix of `s` up to the first occurrence
of `c` (all of `s` if `c` does not occur). -/
def goCutBefore (s : String) (c : Char) : String :=
  String.mk (s.data.takeWhile (fun x => x ≠ c))

/-- Go `strings.HasPrefix`. -/
def goHasPre (s pre : String) : Bool := pre.data.isPrefixOf s.data

/-! ## Version normalizer (osvutil.GoTagToSemver) -/

/-- Maximal digit run at the front of a list, with the rest. -/
def takeDigits (l : List Char) : List Char × List Char :=
  (l.takeWhile Char.isDigit, l.dropWhile Char.isDigit)

/-- Parse the anchored tail `((beta|rc|-pre)(\d+))?$` of the go-tag
regexp `tagRegexp`, returning the submatch triple (group 3, group 4,
group 5), empty on the absent-optional case. -/
def parsePreEnd (l : List Char) : Option (List Char × List Char × List Char) :=
  match l with
  | [] => some ([], [], [])
  | _ =>
    let kind? : Option (List Char × List Char) :=
      if "beta".data.isPrefixOf l then some ("beta".data, l.drop 4)
      else if "rc".data.isPrefixOf l then some ("rc".data, l.drop 2)
      else if "-pre".data.isPrefixOf l then some ("-pre".data, l.drop 4)
      else none
    match kind? with
    | none => none
    | some (k, rest) =>
      let (ds, rest2) := takeDigits rest
      if ds ≠ [] ∧ rest2 = [] then some (k ++ ds, k, ds) else none

/-- `tagRegexp.FindStringSubmatch`: anchored match of
`^go(\d+\.\d+)(\.\d+|)((beta|rc|-pre)(\d+))?$`, returning submatch
groups 1-5. The alternation in group 2 needs no general backtracking:
when group 2 declines a `.digits` run, the remainder starts with `.`,
which no prerelease marker and no end of input accepts. -/
def matchTag (l : List Char) : Option (List Char × List Char × List Char × List Char × List Char) :=
  match l with
  | 'g' :: 'o' :: rest =>
    let (d1, r1) := takeDigits rest
    if d1 = [] then none
    else
      match r1 with
      | '.' :: r2 =>
        let (d2, r3) := takeDigits r2
        if d2 = [] then none
        else
          let m1 := d1 ++ '.' :: d2
          match r3 with
          | '.' :: r4 =>
            let (d3, r5) := takeDigits r4
            if d3 = [] then none
            else
              match parsePreEnd r5 with
              | some (m3, m4, m5) => some (m1, '.' :: d3, m3, m4, m5)
              | none => none
          | _ =>
            match parsePreEnd r3 with
            | some (m3, m4, m5) => some (m1, [], m3, m4, m5)
            | none => none
      | _ => none
  | _ => none

/-- osvutil.GoTagToSemver. `none` models the Go runtime panic of
`strings.Fields(tag)[0]` when `tag` is non-empty but consists of
white space only (`strings.Fields` then returns an empty slice and
the index expression panics). -/
def GoTagToSemver (tag : String) : Option String :=
  if tag = "" then some ""
  else
    match goFields tag with
    | [] => none
    | f :: _ =>
      let tag := String.mk f
      if tag = "go1" then some "v1.0.0"
      else if tag = "go1.0" then some ""
      else
        match matchTag tag.data with
        | none => some ""
        | some (m1, m2, m3, m4, m5) =>
          let version := "v" ++ String.mk m1 ++
            (if m2 ≠ [] then String.mk m2 else ".0")
          if m3 ≠ [] then
            some (version ++ (if goHasPre (String.mk m4) "-" then "" else "-") ++
              String.mk m4 ++ "." ++ String.mk m5)
          else some version

/-! ## OSV data model (golang.org/x/vuln/osv, the fields the core reads) -/

/-- osv.Package: the affected package name and its ecosystem tag. -/
structure OSVPackage where
  name : String
  ecosystem : String
deriving DecidableEq, Repr

/-- osv.EcosystemSpecificImport: per-import platform and symbol
constraints. -/
structure EcoImport where
  path : String
  goos : List String
  goarch : List String
  symbols : List String
deriving DecidableEq, Repr

/-- osv.Affected. The version-range test `Ranges.AffectsSemver` lives
in the external `golang.org/x/vuln/osv` library; the embedding keeps
it abstract as the membership predicate `ranges` on version strings,
which is all the repository's code observes of it. -/
structure Affected where
  pkg : OSVPackage
  ranges : String → Bool
  imports : List EcoImport

/-- osv.Entry, restricted to the fields the repository reads:
`ID`, `Details`, `Affected`. -/
structure OSVEntry where
  id : String
  details : String
  affected : List Affected

/-- packages.Module as the filter sees a replace target: path and
version. -/
structure ModuleId where
  path : String
  version : String
deriving DecidableEq, Repr

/-- packages.Module: identity plus an optional replace directive
(`filterOSVEntries` reads at most one level of `Replace`). -/
structure GoModule where
  path : String
  version : String
  replace : Option ModuleId
deriving DecidableEq, Repr

/-- The module version used by the filter: the replace target's
version when a replace directive is present (analyzer lines 172-175). -/
def modVersionOf (m : GoModule) : String :=
  match m.replace with
  | some r => r.version
  | none => m.version

/-! ## Catalog filter (osvutil.filterOSVEntries / normalizeOSVEntries) -/

/-- osvutil.isStdPackage: the first segment of a standard-library
package path contains no dot. -/
def isStdPackage (pkg : String) : Bool :=
  if pkg = "" then false
  else !((pkg.data.takeWhile (fun c => c ≠ '/')).contains '.')

/-- osvutil.matchesPlatform: an empty GOOS (GOARCH) list matches any
operating system (architecture); a non-empty list matches members. -/
def matchesPlatform (os arch : String) (e : EcoImport) : Bool :=
  (e.goos.isEmpty || e.goos.contains os) &&
  (e.goarch.isEmpty || e.goarch.contains arch)

/-- The per-Affected body of osvutil.filterOSVEntries' inner loop:
`none` when the record is dropped, otherwise the record with
its imports reduced to the platform-matching ones. -/
def filterAffected (goos goarch modPath modVersion : String) (a : Affected) :
    Option Affected :=
  if a.pkg.ecosystem ≠ "Go" then none
  else if modPath = "stdlib" ∧ isStdPackage a.pkg.name = false then none
  else if modPath ≠ "stdlib" ∧ goHasPre a.pkg.name modPath = false then none
  else if modVersion = "" then none
  else if a.ranges modVersion = false then none
  else if a.imports ≠ [] ∧ a.imports.filter (fun p => matchesPlatform goos goarch p) = []
    then none
  else some { a with imports := a.imports.filter (fun p => matchesPlatform goos goarch p) }

/-- The per-entry body of osvutil.filterOSVEntries' outer loop: drop
the entry when no Affected record survives, otherwise emit a shallow
copy with only the surviving Affected records. -/
def filterEntry (goos goarch modPath modVersion : String) (v : OSVEntry) :
    Option OSVEntry :=
  if (v.affected.filterMap (filterAffected goos goarch modPath modVersion)).isEmpty then none
  else some { v with affected := v.affected.filterMap (filterAffected goos goarch modPath modVersion) }

/-- osvutil.filterOSVEntries. The GOOS/GOARCH environment lookup of the
Go source is passed in as the `goos`/`goarch` parameters. -/
def filterOSVEntries (goos goarch : String) (m : GoModule) (vulns : List OSVEntry) :
    List OSVEntry :=
  vulns.filterMap (filterEntry goos goarch m.path (modVersionOf m))

/-- osvutil.normalizeOSVEntries' per-entry rewrite of the details
field: replace newlines by spaces, then trim. -/
def normDetails (s : String) : String := goTrimSpace (goReplaceNewlines s)

/-- osvutil.normalizeOSVEntries. -/
def normalizeOSVEntries (_m : GoModule) (vulns : List OSVEntry) : List OSVEntry :=
  vulns.map (fun v => { v with details := normDetails v.details })

/-! ## Analyzer data model (package analysis)

The reachability engine works on `go/types` objects. The embedding
represents an object by the attributes the analyzer reads: its kind
(the dynamic type of the `types.Object`), name, owning package path
(`Pkg()`, absent for builtins), for methods the receiver's
`dbTypeFormat` name (pointer stripped, path qualifier stripped), for
package aliases the imported package's path (`Imported().Path()`), and
the rendered source position `fset.Position(obj.Pos())`. -/

/-- The dynamic type of a `types.Object` as the analyzer distinguishes
them: `*types.Func`, `*types.Var`, `*types.Const`, `*types.TypeName`,
`*types.PkgName`. -/
inductive ObjKind where
  | funcK
  | varK
  | constK
  | typeNameK
  | pkgNameK
deriving DecidableEq, Repr

/-- A `types.Object` as the analyzer observes it. -/
structure GoObject where
  kind : ObjKind
  name : String
  pkgPath : Option String
  recvType : Option String
  importedPath : String
  pos : String
deriving DecidableEq, Repr

/-- go/token.IsExported: the first character is upper case. -/
def isExportedName (s : String) : Bool :=
  match s.data with
  | [] => false
  | c :: _ => c.isUpper

/-- `types.Object.Exported()`. -/
def GoObject.exported (o : GoObject) : Bool := isExportedName o.name

/-- `types.Object.Id()`: the name itself for exported names, otherwise
the name qualified by the package path (or `_` when there is none). -/
def GoObject.goId (o : GoObject) : String :=
  if isExportedName o.name then o.name
  else
    (match o.pkgPath with
     | some p => if p = "" then "_" else p
     | none => "_") ++ "." ++ o.name

/-- analysis.dbFuncName: bare name for a plain function, receiver-type
name (already `dbTypeFormat`-stripped in the `recvType` field) dot
name for a method. -/
def dbFuncName (o : GoObject) : String :=
  match o.recvType with
  | none => o.name
  | some t => t ++ "." ++ o.name

/-- analysis.objectString0: a qualified name. A package alias prints
its `Pkg()` path; a function prints `pkgpath.dbFuncName`; every other
object prints `pkgpath.name`. -/
def qualifiedName (o : GoObject) : String :=
  match o.kind with
  | ObjKind.pkgNameK => o.pkgPath.getD ""
  | ObjKind.funcK =>
    (match o.pkgPath with
     | some p => p ++ "."
     | none => "") ++ dbFuncName o
  | _ =>
    (match o.pkgPath with
     | some p => p ++ "."
     | none => "") ++ o.name

/-- analysis.objectString: qualified name, space, position. -/
def formatObj (o : GoObject) : String := qualifiedName o ++ " " ++ o.pos

/-- Association-list lookup; the embedding of reading a Go map. -/
def alookup {α β : Type} [DecidableEq α] : List (α × β) → α → Option β
  | [], _ => none
  | (k, v) :: rest, a => if k = a then some v else alookup rest a

/-- analysis.affectedSymbols: union of per-import symbol lists
whose path equals the package path. -/
def affectedSymbols (pkg : String) (v : OSVEntry) : List String :=
  v.affected.foldl (fun syms a =>
    syms ++ (a.imports.filter (fun p => p.path = pkg)).foldl
      (fun acc p => acc ++ p.symbols) []) []

/-- analysis.Catalog: the `-vulns-json` contents (package path to
entry list) and the load error, if any. -/
structure AnalyzerCatalog where
  pkgToVulns : List (String × List OSVEntry)
  err : Option String

/-- analysis.Catalog.isDirectlyVulnerable: the vulnerability ids whose
symbol set for the object's package names the function (an empty
symbol set marks the whole package vulnerable). Objects that are not
`*types.Func`, and functions without a package, yield the empty list. -/
def isDirectlyVulnerable (cat : List (String × List OSVEntry)) (o : GoObject) :
    List String :=
  match o.kind with
  | ObjKind.funcK =>
    match o.pkgPath with
    | none => []
    | some pkg =>
      match (alookup cat pkg).getD [] with
      | [] => []
      | vulns =>
        vulns.foldl (fun acc v =>
          if affectedSymbols pkg v = [] then acc ++ [v.id]
          else acc ++ ((affectedSymbols pkg v).filter
            (fun s => s = dbFuncName o)).map (fun _ => v.id)) []
  | _ => []

/-- The analyzer pass inputs: the reference graph buckets (`refs`, in
Go a map whose iteration order is explicit list order here), the
method table of each type name, the imported package aliases, and the
facts visible from already-analyzed packages (`ImportObjectFact`,
`ImportPackageFact`). -/
structure Pass where
  refs : List (GoObject × List GoObject)
  methods : List (GoObject × List GoObject)
  imports : List GoObject
  objFacts : List (GoObject × List (String × List String))
  pkgFacts : List (String × List (String × List String))

/-- A vulnFact path map: vulnerability key to reference path. -/
abbrev PathMap := List (String × List String)

/-- Go map assignment `path[k] = v` on a path map: overwrite in place
or append. -/
def pmSet (pm : PathMap) (k : String) (v : List String) : PathMap :=
  match alookup pm k with
  | some _ => pm.map (fun kv => if kv.1 = k then (k, v) else kv)
  | none => pm ++ [(k, v)]

/-- Lexicographic order on character lists: the Go `<` on strings
(byte-wise comparison; identical on the ASCII identifiers compared
here). -/
def charListLt : List Char → List Char → Bool
  | [], [] => false
  | [], _ :: _ => true
  | _ :: _, [] => false
  | a :: as, b :: bs =>
    if a.toNat < b.toNat then true
    else if b.toNat < a.toNat then false
    else charListLt as bs

/-- Insertion by `Id()` order, the comparison of the `sort.Slice` call
in analysis.succs. -/
def insertById (a : GoObject) : List GoObject → List GoObject
  | [] => [a]
  | b :: bs => if charListLt b.goId.data a.goId.data then b :: insertById a bs
               else a :: b :: bs

/-- The sorted iteration over a reference bucket in analysis.succs. -/
def sortById (l : List GoObject) : List GoObject := l.foldr insertById []

/-- analysis.succs: the bucket of the object, sorted by `Id()`, and for
a type name additionally its declared methods. -/
def succsOf (P : Pass) (obj : GoObject) : List GoObject :=
  (match alookup P.refs obj with
   | some bucket => sortById bucket
   | none => [])
  ++ (match obj.kind with
      | ObjKind.typeNameK => (alookup P.methods obj).getD []
      | _ => [])

/-- The memoization table of analysis.findPath: absent = white,
`some none` = grey or completed-empty (Go `nil`), `some (some pm)` =
completed with the non-empty path map `pm`. -/
abbrev Memo := List (GoObject × Option PathMap)

/-- The shared per-vulnerability adoption step of findPath (fact branch
and successor branch): keep the previous path when it already starts
with this object's format string, otherwise prepend it. -/
def liftPath (o : String) (pm : PathMap) (src : PathMap) : PathMap :=
  src.foldl (fun acc kv =>
    pmSet acc kv.1 (if kv.2 ≠ [] ∧ kv.2.head? = some o then kv.2 else o :: kv.2)) pm

/-- The direct-hit branch of findPath: one entry per vulnerability id,
keyed `id:symbol` where the symbol is the qualified name part of the
format string (Go `strings.Cut(o[0], " ")`). -/
def directPaths (vulns : List String) (o : String) : PathMap :=
  vulns.foldl (fun acc v => pmSet acc (v ++ ":" ++ goCutBefore o ' ') [o]) []

/-- One unfolding of analysis.findPath, parameterized by the recursive
call `rec`: memo lookup, grey marking at entry, the three path
sources (direct hit, imported object fact, successor recursion), and
the store-only-if-non-empty exit. -/
def findPathBody (cat : List (String × List OSVEntry)) (P : Pass)
    (rec : Memo → GoObject → PathMap × Memo) (memo : Memo) (obj : GoObject) :
    PathMap × Memo :=
  match alookup memo obj with
  | some none => ([], memo)
  | some (some pm) => (pm, memo)
  | none =>
    let r :=
      if isDirectlyVulnerable cat obj ≠ [] then
        (directPaths (isDirectlyVulnerable cat obj) (formatObj obj), (obj, none) :: memo)
      else
        match alookup P.objFacts obj with
        | some fp => (liftPath (formatObj obj) [] fp, (obj, none) :: memo)
        | none =>
          (succsOf P obj).foldl
            (fun acc succ =>
              let r0 := rec acc.2 succ
              if r0.1 ≠ [] then (liftPath (formatObj obj) acc.1 r0.1, r0.2)
              else (acc.1, r0.2))
            ([], (obj, none) :: memo)
    (r.1, if r.1 ≠ [] then (obj, some r.1) :: r.2 else r.2)

/-- analysis.findPath with fuel: fuel 0 returns the empty map (never
reached when the fuel exceeds the number of unvisited nodes, see the
termination theorem). -/
def findPath (cat : List (String × List OSVEntry)) (P : Pass) :
    Nat → Memo → GoObject → PathMap × Memo
  | 0 => fun memo _ => ([], memo)
  | n + 1 => findPathBody cat P (findPath cat P n)

/-- analysis.Diagnostic as the analyzer fills it: position, category,
message (the `End` field is always zero and omitted). -/
structure Diagnostic where
  pos : String
  category : String
  message : String
deriving DecidableEq, Repr

/-- The state threaded through the member loop of analysis.run. -/
structure MemberState where
  memo : Memo
  diags : List Diagnostic
  objFactsOut : List (GoObject × PathMap)
  pkgFactPath : PathMap
deriving DecidableEq, Repr

/-- One iteration of the member loop of analysis.run (lines 368-405):
find the path map, emit one diagnostic per non-empty (vulnerability,
path) pair, export an object fact for exported members, and fold an
`init` member's paths into the package fact path map. -/
def stepMember (cat : List (String × List OSVEntry)) (P : Pass) (fuel : Nat)
    (st : MemberState) (member : GoObject) : MemberState :=
  let r := findPath cat P fuel st.memo member
  if r.1 = [] then { st with memo := r.2 }
  else
    let newDiags := r.1.filterMap (fun kv =>
      if kv.2 = [] then none
      else some { pos := member.pos, category := kv.1,
                  message := goCutBefore kv.1 ':' ++ "|" ++ String.intercalate "\t" kv.2 })
    let st1 : MemberState := { st with memo := r.2, diags := st.diags ++ newDiags }
    let st2 :=
      if member.exported then { st1 with objFactsOut := st1.objFactsOut ++ [(member, r.1)] }
      else st1
    if member.name = "init" then
      { st2 with pkgFactPath := r.1.foldl (fun acc kv =>
          match alookup acc kv.1 with
          | some _ => acc
          | none => acc ++ [(kv.1, kv.2)]) st2.pkgFactPath }
    else st2

/-- One iteration of the import loop of analysis.run (lines 343-362):
an import carrying a package fact yields one diagnostic per fact
entry, at the import's position, and seeds the package fact path map
keeping the shorter path. -/
def importStep (P : Pass) (acc : List Diagnostic × PathMap) (member : GoObject) :
    List Diagnostic × PathMap :=
  match alookup P.pkgFacts member.importedPath with
  | none => acc
  | some factPath =>
    factPath.foldl (fun acc2 kv =>
      let p := formatObj member :: kv.2
      let d : Diagnostic :=
        { pos := member.pos, category := kv.1,
          message := goCutBefore kv.1 ':' ++ "|" ++ String.intercalate "\t" p }
      let pf :=
        match alookup acc2.2 kv.1 with
        | none => pmSet acc2.2 kv.1 p
        | some existing => if p.length < existing.length then pmSet acc2.2 kv.1 p else acc2.2
      (acc2.1 ++ [d], pf)) acc

/-- The outputs of one analyzer run: diagnostics, exported object
facts, exported package fact. -/
structure RunOutput where
  diags : List Diagnostic
  objFactsOut : List (GoObject × PathMap)
  packageFact : Option PathMap
deriving DecidableEq, Repr

/-- The member loop of analysis.run: iterate the `refs` table in its
given order (in Go, map iteration order). -/
def memberLoop (cat : List (String × List OSVEntry)) (P : Pass) (fuel : Nat)
    (st0 : MemberState) : MemberState :=
  P.refs.foldl (fun st mem => stepMember cat P fuel st mem.1) st0

/-- analysis.run: error out when the catalog failed to load, return
clean immediately when it maps no packages, otherwise run the import
loop, the member loop, and export the package fact when its path map
is non-empty. -/
def runAnalysis (cat : AnalyzerCatalog) (P : Pass) (fuel : Nat) :
    Except String RunOutput :=
  match cat.err with
  | some e => Except.error e
  | none =>
    if cat.pkgToVulns.isEmpty then Except.ok ⟨[], [], none⟩
    else
      let imp := P.imports.foldl (importStep P) ([], [])
      let stF := memberLoop cat.pkgToVulns P fuel ⟨[], imp.1, [], imp.2⟩
      Except.ok ⟨stF.diags, stF.objFactsOut,
        if stF.pkgFactPath.isEmpty then none else some stF.pkgFactPath⟩

/-- The diagnostics of a run (empty on a setup error). -/
def runDiags (cat : AnalyzerCatalog) (P : Pass) (fuel : Nat) : List Diagnostic :=
  match runAnalysis cat P fuel with
  | Except.ok o => o.diags
  | Except.error _ => []

/-- The number of graph nodes not yet recorded in the memo table; the
decreasing measure of findPath's recursion. -/
def unvisited (U : List GoObject) (memo : Memo) : Nat :=
  (U.filter (fun o => (alookup memo o).isNone)).length

/-! ## Concrete witness data

A three-function package `p` with functions `A`, `B`, `V`, where the
catalog marks `V` vulnerable (entry `GO-1`), `A` references `B` and
`V`, and `B` references `A` (so `A` and `B` form a reference cycle). -/

/-- A version-range predicate accepting every version. -/
def wRanges : String → Bool := fun _ => true

def oA : GoObject := ⟨ObjKind.funcK, "A", some "p", none, "", "a.go:1:1"⟩

def oB : GoObject := ⟨ObjKind.funcK, "B", some "p", none, "", "b.go:1:1"⟩

def oV : GoObject := ⟨ObjKind.funcK, "V", some "p", none, "", "v.go:1:1"⟩

/-- A catalog entry marking symbol `V` of package `p` vulnerable. -/
def entryV : OSVEntry := ⟨"GO-1", "", [⟨⟨"p", "Go"⟩, wRanges, [⟨"p", [], [], ["V"]⟩]⟩]⟩

def catW : AnalyzerCatalog := { pkgToVulns := [("p", [entryV])], err := none }

/-- The reference graph with member iteration order `A`, `B`, `V`. -/
def passAB : Pass :=
  { refs := [(oA, [oB, oV]), (oB, [oA]), (oV, [])],
    methods := [], imports := [], objFacts := [], pkgFacts := [] }

/-- The same reference graph with member iteration order `B`, `A`, `V`. -/
def passBA : Pass :=
  { refs := [(oB, [oA]), (oA, [oB, oV]), (oV, [])],
    methods := [], imports := [], objFacts := [], pkgFacts := [] }

/-- The diagnostic on `B` that only some iteration orders produce. -/
def diagB : Diagnostic :=
  ⟨"b.go:1:1", "GO-1:p.V", "GO-1|p.B b.go:1:1\tp.A a.go:1:1\tp.V v.go:1:1"⟩

/-- A two-function reference cycle with nothing vulnerable. -/
def passCyc : Pass :=
  { refs := [(oA, [oB]), (oB, [oA])],
    methods := [], imports := [], objFacts := [], pkgFacts := [] }

/-- A module whose replace directive has the empty (unknown) version. -/
def modUnknown : GoModule := ⟨"m.com/x", "v1.0.0", some ⟨"m.com/fork", ""⟩⟩

/-- A module with a known version, for the filter witnesses. -/
def modKnown : GoModule := ⟨"m.com/x", "v1.0.0", none⟩

/-- An entry affecting `m.com/x/sub` with no per-import constraints. -/
def entrySub : OSVEntry := ⟨"GO-2", " some details\n here ", [⟨⟨"m.com/x/sub", "Go"⟩, wRanges, []⟩]⟩

/-! ## List lemmas -/

theorem filter_self_idem {α : Type} (p : α → Bool) (l : List α) :
    (l.filter p).filter p = l.filter p := by
  induction l with
  | nil => rfl
  | cons a as ih =>
    cases h : p a with
    | true => simp [List.filter_cons, h, ih]
    | false => simp [List.filter_cons, h, ih]

theorem filterMap_all_some {α : Type} (f : α → Option α) :
    ∀ l : List α, (∀ x ∈ l, f x = some x) → l.filterMap f = l := by
  intro l
  induction l with
  | nil => intro _; rfl
  | cons a as ih =>
    intro h
    rw [List.filterMap_cons, h a (by simp), ih (fun x hx => h x (by simp [hx]))]

theorem filterMap_stable_idem {α : Type} (f : α → Option α)
    (hf : ∀ a b, f a = some b → f b = some b) (l : List α) :
    (l.filterMap f).filterMap f = l.filterMap f := by
  apply filterMap_all_some
  intro x hx
  obtain ⟨a, _, ha⟩ := List.mem_filterMap.mp hx
  exact hf a x ha

theorem map_congr_mem {α β : Type} (f g : α → β) (l : List α)
    (h : ∀ x ∈ l, f x = g x) : l.map f = l.map g := by
  induction l with
  | nil => rfl
  | cons a as ih =>
    rw [List.map_cons, List.map_cons, h a (by simp),
      ih (fun x hx => h x (by simp [hx]))]

theorem map_id_of_mem {α : Type} (f : α → α) (l : List α)
    (h : ∀ x ∈ l, f x = x) : l.map f = l := by
  induction l with
  | nil => rfl
  | cons a as ih =>
    rw [List.map_cons, h a (by simp), ih (fun x hx => h x (by simp [hx]))]

/-! ## Catalog filter lemmas -/

/-- When the effective module version is the empty sentinel, every
Affected record is dropped. -/
theorem filterAffected_empty_version (goos goarch mp : String) (a : Affected) :
    filterAffected goos goarch mp "" a = none := by
  unfold filterAffected
  split_ifs <;> simp_all

/-- What a surviving Affected record looks like and which checks it
passed. -/
theorem filterAffected_some (goos goarch mp mv : String) {a b : Affected}
    (h : filterAffected goos goarch mp mv a = some b) :
    b = { a with imports := a.imports.filter (fun p => matchesPlatform goos goarch p) } ∧
    a.pkg.ecosystem = "Go" ∧
    (mp = "stdlib" → isStdPackage a.pkg.name = true) ∧
    (mp ≠ "stdlib" → goHasPre a.pkg.name mp = true) ∧
    mv ≠ "" ∧ a.ranges mv = true ∧
    (a.imports ≠ [] → a.imports.filter (fun p => matchesPlatform goos goarch p) ≠ []) := by
  unfold filterAffected at h
  split_ifs at h with h1 h2 h3 h4 h5 h6
  injection h with h
  refine ⟨h.symm, not_not.mp h1, ?_, ?_, h4, ?_, ?_⟩
  · intro hmp
    cases hh : isStdPackage a.pkg.name with
    | false => exact absurd ⟨hmp, hh⟩ h2
    | true => rfl
  · intro hmp
    cases hh : goHasPre a.pkg.name mp with
    | false => exact absurd ⟨hmp, hh⟩ h3
    | true => rfl
  · cases hh : a.ranges mv with
    | false => exact absurd hh h5
    | true => rfl
  · exact fun hne hfe => h6 ⟨hne, hfe⟩

/-- A record kept by the filter is kept unchanged when filtered again. -/
theorem filterAffected_stable (goos goarch mp mv : String) {a b : Affected}
    (h : filterAffected goos goarch mp mv a = some b) :
    filterAffected goos goarch mp mv b = some b := by
  obtain ⟨hb, hgo, hstd, hnstd, hmv, hrg, himp⟩ := filterAffected_some goos goarch mp mv h
  subst hb
  unfold filterAffected
  split_ifs with g1 g2 g3 g4 g5
  · exact absurd hgo g1
  · obtain ⟨ga, gb⟩ := g2
    have gb' : isStdPackage a.pkg.name = false := gb
    rw [hstd ga] at gb'
    exact Bool.noConfusion gb'
  · obtain ⟨ga, gb⟩ := g3
    have gb' : goHasPre a.pkg.name mp = false := gb
    rw [hnstd ga] at gb'
    exact Bool.noConfusion gb'
  · have g4' : a.ranges mv = false := g4
    rw [hrg] at g4'
    exact Bool.noConfusion g4'
  · obtain ⟨ga, gb⟩ := g5
    have ga' : a.imports.filter (fun p => matchesPlatform goos goarch p) ≠ [] := ga
    have gb' : (a.imports.filter (fun p => matchesPlatform goos goarch p)).filter
        (fun p => matchesPlatform goos goarch p) = [] := gb
    rw [filter_self_idem] at gb'
    exact ga' gb'
  · show some (⟨a.pkg, a.ranges,
        (a.imports.filter (fun p => matchesPlatform goos goarch p)).filter
          (fun p => matchesPlatform goos goarch p)⟩ : Affected) = _
    rw [filter_self_idem]

/-- What a surviving entry looks like: its Affected list is the
filterMap of the original one, and it is non-empty. -/
theorem filterEntry_some (goos goarch mp mv : String) {v w : OSVEntry}
    (h : filterEntry goos goarch mp mv v = some w) :
    w = { v with affected := v.affected.filterMap (filterAffected goos goarch mp mv) } ∧
    v.affected.filterMap (filterAffected goos goarch mp mv) ≠ [] := by
  unfold filterEntry at h
  split_ifs at h with h1
  injection h with h
  refine ⟨h.symm, ?_⟩
  simpa [List.isEmpty_iff] using h1

/-- An entry kept by the filter is kept unchanged when filtered again. -/
theorem filterEntry_stable (goos goarch mp mv : String) {v w : OSVEntry}
    (h : filterEntry goos goarch mp mv v = some w) :
    filterEntry goos goarch mp mv w = some w := by
  obtain ⟨hw, hne⟩ := filterEntry_some goos goarch mp mv h
  subst hw
  have hstab : (v.affected.filterMap (filterAffected goos goarch mp mv)).filterMap
      (filterAffected goos goarch mp mv)
      = v.affected.filterMap (filterAffected goos goarch mp mv) :=
    filterMap_stable_idem _ (fun _ _ hab => filterAffected_stable goos goarch mp mv hab) _
  unfold filterEntry
  split_ifs with g1
  · have g1' : ((v.affected.filterMap (filterAffected goos goarch mp mv)).filterMap
        (filterAffected goos goarch mp mv)).isEmpty = true := g1
    rw [hstab] at g1'
    exact absurd (List.isEmpty_iff.mp g1') hne
  · show some (⟨v.id, v.details,
        (v.affected.filterMap (filterAffected goos goarch mp mv)).filterMap
          (filterAffected goos goarch mp mv)⟩ : OSVEntry) = _
    rw [hstab]

/-! ## Normalization lemmas -/

theorem dropWhile_fix {α : Type} (p : α → Bool) (l : List α) :
    (List.rdropWhile p (l.dropWhile p)).dropWhile p
      = List.rdropWhile p (l.dropWhile p) := by
  rcases hr : List.rdropWhile p (l.dropWhile p) with _ | ⟨a, as⟩
  · rfl
  · have hpre := List.rdropWhile_prefix p (l.dropWhile p)
    rw [hr] at hpre
    obtain ⟨t, ht⟩ := hpre
    have hne : l.dropWhile p ≠ [] := by
      rw [← ht]; simp
    have hhead : (l.dropWhile p).head? = some a := by
      rw [← ht]; rfl
    have hfail := List.head_dropWhile_not p l hne
    rw [List.head?_eq_head hne] at hhead
    injection hhead with hhead
    have hpa : p a = false := by
      rw [hhead] at hfail
      exact hfail
    simp [List.dropWhile_cons, hpa]

theorem goTrimSpace_idem (s : String) : goTrimSpace (goTrimSpace s) = goTrimSpace s := by
  show String.mk (List.rdropWhile goIsSpace
      ((List.rdropWhile goIsSpace (s.data.dropWhile goIsSpace)).dropWhile goIsSpace))
    = String.mk (List.rdropWhile goIsSpace (s.data.dropWhile goIsSpace))
  rw [dropWhile_fix, List.rdropWhile_idempotent]

theorem goReplaceNewlines_no_newline (s : String) :
    ∀ c ∈ (goReplaceNewlines s).data, c ≠ '\n' := by
  intro c hc
  obtain ⟨a, _, ha⟩ := List.mem_map.mp hc
  intro hcn
  subst hcn
  by_cases hA : a = '\n' <;> simp [hA] at ha

theorem goReplaceNewlines_id (s : String) (h : ∀ c ∈ s.data, c ≠ '\n') :
    goReplaceNewlines s = s := by
  show String.mk (s.data.map _) = s
  rw [map_id_of_mem _ _ (fun x hx => by simp [h x hx])]

theorem goTrimSpace_no_newline (s : String) (h : ∀ c ∈ s.data, c ≠ '\n') :
    ∀ c ∈ (goTrimSpace s).data, c ≠ '\n' := by
  intro c hc
  apply h
  have h1 : c ∈ (s.data.dropWhile goIsSpace).reverse.dropWhile goIsSpace :=
    (List.mem_reverse).mp hc
  have h2 : c ∈ (s.data.dropWhile goIsSpace).reverse :=
    (List.dropWhile_suffix goIsSpace).subset h1
  have h3 : c ∈ s.data.dropWhile goIsSpace := (List.mem_reverse).mp h2
  exact (List.dropWhile_suffix goIsSpace).subset h3

theorem normDetails_idem (s : String) : normDetails (normDetails s) = normDetails s := by
  unfold normDetails
  rw [goReplaceNewlines_id (goTrimSpace (goReplaceNewlines s))
    (goTrimSpace_no_newline _ (goReplaceNewlines_no_newline s)), goTrimSpace_idem]

/-- Filtering the normalized filter output keeps it unchanged. -/
theorem filter_of_normalized_filtered (goos goarch : String) (m : GoModule)
    (vulns : List OSVEntry) :
    (normalizeOSVEntries m (filterOSVEntries goos goarch m vulns)).filterMap
      (filterEntry goos goarch m.path (modVersionOf m))
    = normalizeOSVEntries m (filterOSVEntries goos goarch m vulns) := by
  apply filterMap_all_some
  intro y hy
  obtain ⟨x, hx, hxy⟩ := List.mem_map.mp hy
  obtain ⟨v, _, hvx⟩ := List.mem_filterMap.mp hx
  obtain ⟨hxw, hne⟩ := filterEntry_some _ _ _ _ hvx
  subst hxw
  subst hxy
  have hstab : (v.affected.filterMap (filterAffected goos goarch m.path (modVersionOf m))).filterMap
      (filterAffected goos goarch m.path (modVersionOf m))
      = v.affected.filterMap (filterAffected goos goarch m.path (modVersionOf m)) :=
    filterMap_stable_idem _
      (fun _ _ hab => filterAffected_stable goos goarch m.path (modVersionOf m) hab) _
  unfold filterEntry
  split_ifs with g1
  · have g1' : ((v.affected.filterMap
        (filterAffected goos goarch m.path (modVersionOf m))).filterMap
        (filterAffected goos goarch m.path (modVersionOf m))).isEmpty = true := g1
    rw [hstab] at g1'
    exact absurd (List.isEmpty_iff.mp g1') hne
  · show some (⟨v.id, normDetails v.details,
        (v.affected.filterMap (filterAffected goos goarch m.path (modVersionOf m))).filterMap
          (filterAffected goos goarch m.path (modVersionOf m))⟩ : OSVEntry) = _
    rw [hstab]

/-- C7: applying the catalog filter followed by normalization twice,
with the same module, operating system and architecture, equals
applying it once. -/
theorem c7_filter_normalize_idempotent (goos goarch : String) (m : GoModule)
    (vulns : List OSVEntry) :
    normalizeOSVEntries m (filterOSVEntries goos goarch m
      (normalizeOSVEntries m (filterOSVEntries goos goarch m vulns)))
    = normalizeOSVEntries m (filterOSVEntries goos goarch m vulns) := by
  show normalizeOSVEntries m
      ((normalizeOSVEntries m (filterOSVEntries goos goarch m vulns)).filterMap
        (filterEntry goos goarch m.path (modVersionOf m)))
    = normalizeOSVEntries m (filterOSVEntries goos goarch m vulns)
  rw [filter_of_normalized_filtered]
  show ((filterOSVEntries goos goarch m vulns).map _).map _
    = (filterOSVEntries goos goarch m vulns).map _
  rw [List.map_map]
  apply map_congr_mem
  intro x _
  show OSVEntry.mk x.id (normDetails (normDetails x.details)) x.affected
    = OSVEntry.mk x.id (normDetails x.details) x.affected
  rw [normDetails_idem]

/-- C3: when the effective module version (after the replace
directive) is the empty sentinel, the filter keeps no entry, the
normalized entry list is empty, and a package with no catalog entries
has no directly vulnerable object (so no diagnostic can reference the
module). -/
theorem c3_unknown_version (goos goarch : String) (m : GoModule) (vulns : List OSVEntry)
    (h : modVersionOf m = "") :
    filterOSVEntries goos goarch m vulns = [] ∧
    normalizeOSVEntries m (filterOSVEntries goos goarch m vulns) = [] ∧
    ∀ (cat : List (String × List OSVEntry)) (o : GoObject) (pkg : String),
      o.pkgPath = some pkg → (alookup cat pkg).getD [] = [] →
      isDirectlyVulnerable cat o = [] := by
  have hfil : filterOSVEntries goos goarch m vulns = [] := by
    unfold filterOSVEntries
    rw [h]
    refine List.filterMap_eq_nil_iff.mpr ?_
    intro v _
    unfold filterEntry
    have hz : v.affected.filterMap (filterAffected goos goarch m.path "") = [] := by
      refine List.filterMap_eq_nil_iff.mpr ?_
      intro a _
      exact filterAffected_empty_version goos goarch m.path a
    rw [hz]
    rfl
  refine ⟨hfil, by rw [hfil]; rfl, ?_⟩
  intro cat o pkg hp hl
  unfold isDirectlyVulnerable
  rcases o with ⟨k, nm, pp, rt, ip, ps⟩
  cases k <;> try rfl
  have hp' : pp = some pkg := hp
  subst hp'
  show (match (alookup cat pkg).getD [] with
    | [] => []
    | vulns => vulns.foldl _ []) = []
  rw [hl]

/-- C3 witness: a module whose replace directive carries the unknown
version keeps no entry. -/
theorem c3_witness :
    modVersionOf modUnknown = "" ∧
    filterOSVEntries "linux" "amd64" modUnknown [entrySub] = [] :=
  ⟨rfl, (c3_unknown_version "linux" "amd64" modUnknown [entrySub] rfl).1⟩

/-- C6: every Affected record surviving the filter has ecosystem `Go`,
and its package name is a standard-library path for the stdlib
pseudo-module, respectively has the module path as a string prefix
for every other module. -/
theorem c6_ecosystem_and_prefix (goos goarch : String) (m : GoModule)
    (vulns : List OSVEntry) (e : OSVEntry) (a : Affected)
    (he : e ∈ filterOSVEntries goos goarch m vulns) (ha : a ∈ e.affected) :
    a.pkg.ecosystem = "Go" ∧
    (m.path = "stdlib" → isStdPackage a.pkg.name = true) ∧
    (m.path ≠ "stdlib" → goHasPre a.pkg.name m.path = true) := by
  obtain ⟨v, _, hve⟩ := List.mem_filterMap.mp he
  obtain ⟨hw, _⟩ := filterEntry_some _ _ _ _ hve
  subst hw
  have ha' : a ∈ v.affected.filterMap (filterAffected goos goarch m.path (modVersionOf m)) := ha
  obtain ⟨a0, _, ha0⟩ := List.mem_filterMap.mp ha'
  obtain ⟨hb, hgo, hstd, hnstd, _, _, _⟩ := filterAffected_some _ _ _ _ ha0
  subst hb
  exact ⟨hgo, hstd, hnstd⟩

/-- C6 witness: a surviving third-party record at a concrete input has
ecosystem `Go` and module-path-prefixed package name. -/
theorem c6_witness :
    ("Go" : String) = "Go" ∧ goHasPre "m.com/x/sub" "m.com/x" = true := by
  have hmem : entrySub ∈ filterOSVEntries "linux" "amd64" modKnown [entrySub] := by
    show entrySub ∈ [entrySub]
    exact List.mem_singleton.mpr rfl
  have haff : (⟨⟨"m.com/x/sub", "Go"⟩, wRanges, []⟩ : Affected) ∈ entrySub.affected :=
    List.mem_singleton.mpr rfl
  have hc := c6_ecosystem_and_prefix "linux" "amd64" modKnown [entrySub] entrySub
    ⟨⟨"m.com/x/sub", "Go"⟩, wRanges, []⟩ hmem haff
  exact ⟨hc.1, hc.2.2 (by decide)⟩

/-- C5: the tag-to-semver laws of the spec hold on all the listed
inputs, but a non-empty all-white-space tag makes the Go code panic
(`strings.Fields(tag)[0]` on an empty slice), modelled by `none`,
instead of returning the empty string. -/
theorem c5_tag_to_semver_laws :
    GoTagToSemver "go1" = some "v1.0.0" ∧
    GoTagToSemver "go1.0" = some "" ∧
    GoTagToSemver "go1.21rc2" = some "v1.21.0-rc.2" ∧
    GoTagToSemver "go1.20.3" = some "v1.20.3" ∧
    GoTagToSemver "not-a-tag" = some "" ∧
    GoTagToSemver " " = none := by
  refine ⟨?_, ?_, ?_, ?_, ?_, ?_⟩ <;> decide

/-- C9: an object that is not a `*types.Func` is never directly
vulnerable, whatever the catalog says. -/
theorem c9_only_funcs_direct (cat : List (String × List OSVEntry)) (o : GoObject)
    (h : o.kind ≠ ObjKind.funcK) :
    isDirectlyVulnerable cat o = [] := by
  unfold isDirectlyVulnerable
  rcases o with ⟨k, nm, pp, rt, ip, ps⟩
  cases k
  · exact absurd rfl h
  all_goals rfl

/-- C9 witness: a package-level variable named like a vulnerable
symbol produces no direct hit. -/
theorem c9_witness :
    (⟨ObjKind.varK, "V", some "p", none, "", "x.go:1:1"⟩ : GoObject).kind ≠ ObjKind.funcK ∧
    isDirectlyVulnerable [("p", [entryV])]
      ⟨ObjKind.varK, "V", some "p", none, "", "x.go:1:1"⟩ = [] :=
  ⟨by decide, c9_only_funcs_direct _ _ (by decide)⟩

/-! ## Reachability engine lemmas -/

/-- Invariant preservation through a left fold. -/
theorem foldl_inv {α β : Type} (Q : α → Prop) (step : α → β → α) :
    ∀ (l : List β), (∀ acc s, s ∈ l → Q acc → Q (step acc s)) →
    ∀ acc, Q acc → Q (l.foldl step acc)
  | [], _, _, h => h
  | a :: as, hstep, acc, h =>
    foldl_inv Q step as
      (fun acc' s hs hq => hstep acc' s (List.mem_cons_of_mem a hs) hq)
      (step acc a) (hstep acc a (List.mem_cons_self a as) h)

/-- Two left folds agree when their steps agree on every state
satisfying a preserved invariant. -/
theorem foldl_congr_inv {α β : Type} (Q : α → Prop) (step₁ step₂ : α → β → α) :
    ∀ (l : List β),
      (∀ acc s, s ∈ l → Q acc → step₁ acc s = step₂ acc s ∧ Q (step₁ acc s)) →
    ∀ acc, Q acc → l.foldl step₁ acc = l.foldl step₂ acc ∧ Q (l.foldl step₁ acc)
  | [], _, _, h => ⟨rfl, h⟩
  | a :: as, hstep, acc, h => by
    obtain ⟨heq, hq⟩ := hstep acc a (List.mem_cons_self a as) h
    have ih := foldl_congr_inv Q step₁ step₂ as
      (fun acc' s hs hq' => hstep acc' s (List.mem_cons_of_mem a hs) hq')
      (step₁ acc a) hq
    refine ⟨?_, ih.2⟩
    show (as.foldl step₁ (step₁ acc a)) = (as.foldl step₂ (step₂ acc a))
    rw [← heq]
    exact ih.1

/-- Memo lookups survive a findPath call: the memo table only grows. -/
theorem findPath_memo_mono (cat : List (String × List OSVEntry)) (P : Pass) :
    ∀ (fuel : Nat) (memo : Memo) (obj o : GoObject),
      alookup memo o ≠ none → alookup (findPath cat P fuel memo obj).2 o ≠ none := by
  intro fuel
  induction fuel with
  | zero => intro memo obj o h; exact h
  | succ n ih =>
    intro memo obj o h
    show alookup (findPathBody cat P (findPath cat P n) memo obj).2 o ≠ none
    unfold findPathBody
    split
    · exact h
    · exact h
    · have hcons : alookup ((obj, none) :: memo) o ≠ none := by
        show (if obj = o then some none else alookup memo o) ≠ none
        split
        · simp
        · exact h
      have key : ∀ (r : PathMap × Memo),
          alookup r.2 o ≠ none →
          alookup (r.1, if r.1 ≠ [] then (obj, some r.1) :: r.2 else r.2).2 o ≠ none := by
        intro r hr2
        show alookup (if r.1 ≠ [] then (obj, some r.1) :: r.2 else r.2) o ≠ none
        split
        · show (if obj = o then some (some r.1) else alookup r.2 o) ≠ none
          split
          · simp
          · exact hr2
        · exact hr2
      apply key
      split
      · exact hcons
      · split
        · exact hcons
        · refine foldl_inv (fun acc : PathMap × Memo => alookup acc.2 o ≠ none)
            (fun acc succ =>
              let r0 := findPath cat P n acc.2 succ
              if r0.1 ≠ [] then (liftPath (formatObj obj) acc.1 r0.1, r0.2)
              else (acc.1, r0.2))
            (succsOf P obj)
            (fun acc s _ hacc => ?_)
            ([], (obj, none) :: memo) hcons
          show alookup (if (findPath cat P n acc.2 s).1 ≠ []
              then (liftPath (formatObj obj) acc.1 (findPath cat P n acc.2 s).1,
                    (findPath cat P n acc.2 s).2)
              else (acc.1, (findPath cat P n acc.2 s).2)).2 o ≠ none
          split <;> exact ih acc.2 s o hacc

theorem alookup_cons {α β : Type} [DecidableEq α] (k : α) (v : β)
    (m : List (α × β)) (a : α) :
    alookup ((k, v) :: m) a = if k = a then some v else alookup m a := rfl

/-- A larger memo leaves no more nodes unvisited. -/
theorem unvisited_mono (U : List GoObject) (m₁ m₂ : Memo)
    (h : ∀ o, alookup m₁ o ≠ none → alookup m₂ o ≠ none) :
    unvisited U m₂ ≤ unvisited U m₁ := by
  unfold unvisited
  induction U with
  | nil => exact Nat.le_refl 0
  | cons a as ih =>
    rw [List.filter_cons, List.filter_cons]
    by_cases h2 : alookup m₂ a = none
    · have h1 : alookup m₁ a = none := by
        by_contra hc
        exact (h a hc) h2
      simp only [h1, h2, Option.isNone_none, if_pos, List.length_cons]
      exact Nat.succ_le_succ ih
    · by_cases h1 : alookup m₁ a = none
      · simp only [h1, h2, Option.isNone_none, Option.isNone_iff_eq_none, if_neg,
          if_pos, List.length_cons]
        refine le_trans ?_ (Nat.le_succ _)
        simpa [h2] using ih
      · simp only [Option.isNone_iff_eq_none, h1, h2, if_neg]
        simpa [h1, h2] using ih

/-- Recording an unvisited node in the memo decreases the unvisited
count by exactly one. -/
theorem unvisited_cons (U : List GoObject) (memo : Memo) (obj : GoObject)
    (v : Option PathMap) (hU : U.Nodup) (hobj : obj ∈ U)
    (hno : alookup memo obj = none) :
    unvisited U ((obj, v) :: memo) + 1 = unvisited U memo := by
  unfold unvisited
  induction U with
  | nil => cases hobj
  | cons a as ih =>
    rw [List.filter_cons, List.filter_cons]
    rcases List.mem_cons.mp hobj with rfl | hmem
    · have hnota : obj ∉ as := (List.nodup_cons.mp hU).1
      have e2 : alookup ((obj, v) :: memo) obj = some v := by
        rw [alookup_cons, if_pos rfl]
      have hfeq : as.filter (fun o => (alookup ((obj, v) :: memo) o).isNone)
          = as.filter (fun o => (alookup memo o).isNone) := by
        apply List.filter_congr
        intro x hx
        have hax : obj ≠ x := fun hh => hnota (hh ▸ hx)
        rw [alookup_cons, if_neg hax]
      rw [e2, hno]
      simp [hfeq]
    · have hne : a ≠ obj := fun hh => (List.nodup_cons.mp hU).1 (hh ▸ hmem)
      have e2 : alookup ((obj, v) :: memo) a = alookup memo a := by
        rw [alookup_cons, if_neg (fun hh => hne hh.symm)]
      rw [e2]
      have ih' := ih (List.nodup_cons.mp hU).2 hmem
      cases hcase : (alookup memo a).isNone
      · simp only [hcase, Bool.false_eq_true, if_neg]
        exact ih'
      · simp only [hcase, if_pos, List.length_cons]
        omega

/-- When no node of `U` is unvisited, every node of `U` is in the
memo. -/
theorem alookup_of_unvisited_zero (U : List GoObject) (memo : Memo) (obj : GoObject)
    (hobj : obj ∈ U) (h : unvisited U memo = 0) : alookup memo obj ≠ none := by
  intro hnone
  unfold unvisited at h
  rw [List.length_eq_zero] at h
  have hm : obj ∈ U.filter (fun o => (alookup memo o).isNone) :=
    List.mem_filter.mpr ⟨hobj, by simp [hnone]⟩
  rw [h] at hm
  cases hm

/-- findPathBody only consults its recursive call through the
successor fold, and only when the object is unvisited. -/
theorem findPathBody_congr (cat : List (String × List OSVEntry)) (P : Pass)
    (rec₁ rec₂ : Memo → GoObject → PathMap × Memo) (memo : Memo) (obj : GoObject)
    (hfold : alookup memo obj = none →
      (succsOf P obj).foldl
        (fun acc succ =>
          let r0 := rec₁ acc.2 succ
          if r0.1 ≠ [] then (liftPath (formatObj obj) acc.1 r0.1, r0.2)
          else (acc.1, r0.2)) ([], (obj, none) :: memo)
      = (succsOf P obj).foldl
        (fun acc succ =>
          let r0 := rec₂ acc.2 succ
          if r0.1 ≠ [] then (liftPath (formatObj obj) acc.1 r0.1, r0.2)
          else (acc.1, r0.2)) ([], (obj, none) :: memo)) :
    findPathBody cat P rec₁ memo obj = findPathBody cat P rec₂ memo obj := by
  unfold findPathBody
  cases hl : alookup memo obj with
  | some op => cases op <;> rfl
  | none =>
    have hf := hfold hl
    show (fun r : PathMap × Memo =>
        (r.1, if r.1 ≠ [] then (obj, some r.1) :: r.2 else r.2))
      (if isDirectlyVulnerable cat obj ≠ [] then
        (directPaths (isDirectlyVulnerable cat obj) (formatObj obj), (obj, none) :: memo)
      else
        match alookup P.objFacts obj with
        | some fp => (liftPath (formatObj obj) [] fp, (obj, none) :: memo)
        | none => (succsOf P obj).foldl (fun acc succ =>
            let r0 := rec₁ acc.2 succ
            if r0.1 ≠ [] then (liftPath (formatObj obj) acc.1 r0.1, r0.2)
            else (acc.1, r0.2)) ([], (obj, none) :: memo))
      = (fun r : PathMap × Memo =>
        (r.1, if r.1 ≠ [] then (obj, some r.1) :: r.2 else r.2))
      (if isDirectlyVulnerable cat obj ≠ [] then
        (directPaths (isDirectlyVulnerable cat obj) (formatObj obj), (obj, none) :: memo)
      else
        match alookup P.objFacts obj with
        | some fp => (liftPath (formatObj obj) [] fp, (obj, none) :: memo)
        | none => (succsOf P obj).foldl (fun acc succ =>
            let r0 := rec₂ acc.2 succ
            if r0.1 ≠ [] then (liftPath (formatObj obj) acc.1 r0.1, r0.2)
            else (acc.1, r0.2)) ([], (obj, none) :: memo))
    refine congrArg (fun r : PathMap × Memo =>
      (r.1, if r.1 ≠ [] then (obj, some r.1) :: r.2 else r.2)) ?_
    by_cases hdv : isDirectlyVulnerable cat obj ≠ []
    · simp only [if_pos hdv]
    · simp only [if_neg hdv]
      cases hff : alookup P.objFacts obj with
      | some fp => rfl
      | none => exact hf

/-- C4's termination core: once the fuel exceeds the number of
unvisited nodes of a universe that is closed under successors, the
findPath result no longer depends on the fuel. -/
theorem findPath_fuel_stable (cat : List (String × List OSVEntry)) (P : Pass)
    (U : List GoObject) (hU : U.Nodup)
    (hcl : ∀ o ∈ U, ∀ s ∈ succsOf P o, s ∈ U) :
    ∀ (n : Nat) (memo : Memo) (obj : GoObject) (fuel₁ fuel₂ : Nat),
      obj ∈ U → unvisited U memo ≤ n → n < fuel₁ → n < fuel₂ →
      findPath cat P fuel₁ memo obj = findPath cat P fuel₂ memo obj := by
  intro n
  induction n with
  | zero =>
    intro memo obj fuel₁ fuel₂ hobj hun h1 h2
    obtain ⟨g₁, rfl⟩ : ∃ g, fuel₁ = g + 1 := ⟨fuel₁ - 1, by omega⟩
    obtain ⟨g₂, rfl⟩ : ∃ g, fuel₂ = g + 1 := ⟨fuel₂ - 1, by omega⟩
    show findPathBody cat P (findPath cat P g₁) memo obj
      = findPathBody cat P (findPath cat P g₂) memo obj
    apply findPathBody_congr
    intro hl
    exact absurd hl (alookup_of_unvisited_zero U memo obj hobj (Nat.le_zero.mp hun))
  | succ m ih =>
    intro memo obj fuel₁ fuel₂ hobj hun h1 h2
    obtain ⟨g₁, rfl⟩ : ∃ g, fuel₁ = g + 1 := ⟨fuel₁ - 1, by omega⟩
    obtain ⟨g₂, rfl⟩ : ∃ g, fuel₂ = g + 1 := ⟨fuel₂ - 1, by omega⟩
    show findPathBody cat P (findPath cat P g₁) memo obj
      = findPathBody cat P (findPath cat P g₂) memo obj
    apply findPathBody_congr
    intro hl
    have hm1 : unvisited U ((obj, none) :: memo) ≤ m := by
      have hc := unvisited_cons U memo obj none hU hobj hl
      omega
    refine (foldl_congr_inv (fun acc : PathMap × Memo => unvisited U acc.2 ≤ m)
      _ _ (succsOf P obj) ?_ ([], (obj, none) :: memo) hm1).1
    intro acc s hs hq
    have heq : findPath cat P g₁ acc.2 s = findPath cat P g₂ acc.2 s :=
      ih acc.2 s g₁ g₂ (hcl obj hobj s hs) hq (by omega) (by omega)
    have hm2 : unvisited U (findPath cat P g₁ acc.2 s).2 ≤ m :=
      le_trans (unvisited_mono U acc.2 (findPath cat P g₁ acc.2 s).2
        (fun o ho => findPath_memo_mono cat P g₁ acc.2 s o ho)) hq
    constructor
    · show (let r0 := findPath cat P g₁ acc.2 s
        if r0.1 ≠ [] then (liftPath (formatObj obj) acc.1 r0.1, r0.2)
        else (acc.1, r0.2))
        = (let r0 := findPath cat P g₂ acc.2 s
        if r0.1 ≠ [] then (liftPath (formatObj obj) acc.1 r0.1, r0.2)
        else (acc.1, r0.2))
      rw [heq]
    · show unvisited U (if (findPath cat P g₁ acc.2 s).1 ≠ []
          then (liftPath (formatObj obj) acc.1 (findPath cat P g₁ acc.2 s).1,
            (findPath cat P g₁ acc.2 s).2)
          else (acc.1, (findPath cat P g₁ acc.2 s).2)).2 ≤ m
      split <;> exact hm2

/-- Unfolding findPath on a grey (or completed-empty) node: the empty
map is returned and the memo is untouched. -/
theorem findPath_succ_grey (cat : List (String × List OSVEntry)) (P : Pass)
    (n : Nat) (memo : Memo) (obj : GoObject)
    (hl : alookup memo obj = some none) :
    findPath cat P (n + 1) memo obj = ([], memo) := by
  show findPathBody cat P (findPath cat P n) memo obj = _
  unfold findPathBody
  rw [hl]

/-- Unfolding findPath on a node completed with a non-empty path map. -/
theorem findPath_succ_hit (cat : List (String × List OSVEntry)) (P : Pass)
    (n : Nat) (memo : Memo) (obj : GoObject) (pm : PathMap)
    (hl : alookup memo obj = some (some pm)) :
    findPath cat P (n + 1) memo obj = (pm, memo) := by
  show findPathBody cat P (findPath cat P n) memo obj = _
  unfold findPathBody
  rw [hl]

/-- Unfolding findPath on an unvisited node. -/
theorem findPath_succ_none (cat : List (String × List OSVEntry)) (P : Pass)
    (n : Nat) (memo : Memo) (obj : GoObject)
    (hl : alookup memo obj = none) :
    findPath cat P (n + 1) memo obj =
      (fun r : PathMap × Memo =>
        (r.1, if r.1 ≠ [] then (obj, some r.1) :: r.2 else r.2))
      (if isDirectlyVulnerable cat obj ≠ [] then
        (directPaths (isDirectlyVulnerable cat obj) (formatObj obj), (obj, none) :: memo)
      else
        match alookup P.objFacts obj with
        | some fp => (liftPath (formatObj obj) [] fp, (obj, none) :: memo)
        | none => (succsOf P obj).foldl (fun acc succ =>
            let r0 := findPath cat P n acc.2 succ
            if r0.1 ≠ [] then (liftPath (formatObj obj) acc.1 r0.1, r0.2)
            else (acc.1, r0.2)) ([], (obj, none) :: memo)) := by
  show findPathBody cat P (findPath cat P n) memo obj = _
  unfold findPathBody
  rw [hl]

/-- C4's cycle core: over a successor-closed set of objects none of
which is directly vulnerable or carries an imported fact, findPath
returns the empty map and stores only grey marks. -/
theorem findPath_clean (cat : List (String × List OSVEntry)) (P : Pass)
    (S : List GoObject)
    (hcl : ∀ o ∈ S, ∀ s ∈ succsOf P o, s ∈ S)
    (hnv : ∀ o ∈ S, isDirectlyVulnerable cat o = [] ∧ alookup P.objFacts o = none) :
    ∀ (fuel : Nat) (memo : Memo) (obj : GoObject),
      obj ∈ S →
      (∀ o ∈ S, alookup memo o = none ∨ alookup memo o = some none) →
      (findPath cat P fuel memo obj).1 = [] ∧
      (∀ o ∈ S, alookup (findPath cat P fuel memo obj).2 o = none ∨
        alookup (findPath cat P fuel memo obj).2 o = some none) := by
  intro fuel
  induction fuel with
  | zero => intro memo obj _ hcln; exact ⟨rfl, hcln⟩
  | succ n ih =>
    intro memo obj hobj hcln
    rcases hcln obj hobj with hl | hl
    · obtain ⟨hdv, hfact⟩ := hnv obj hobj
      have hcln1 : ∀ o ∈ S, alookup ((obj, none) :: memo) o = none ∨
          alookup ((obj, none) :: memo) o = some none := by
        intro o ho
        rw [alookup_cons]
        split
        · exact Or.inr rfl
        · exact hcln o ho
      have hfold := foldl_inv
        (fun acc : PathMap × Memo => acc.1 = [] ∧
          (∀ o ∈ S, alookup acc.2 o = none ∨ alookup acc.2 o = some none))
        (fun acc succ =>
          let r0 := findPath cat P n acc.2 succ
          if r0.1 ≠ [] then (liftPath (formatObj obj) acc.1 r0.1, r0.2)
          else (acc.1, r0.2))
        (succsOf P obj)
        (fun acc s hs hq => by
          have hih := ih acc.2 s (hcl obj hobj s hs) hq.2
          have heq : ((fun (acc : PathMap × Memo) (succ : GoObject) =>
                let r0 := findPath cat P n acc.2 succ
                if r0.1 ≠ [] then (liftPath (formatObj obj) acc.1 r0.1, r0.2)
                else (acc.1, r0.2)) acc s) = (acc.1, (findPath cat P n acc.2 s).2) := by
            show (if (findPath cat P n acc.2 s).1 ≠ []
                then (liftPath (formatObj obj) acc.1 (findPath cat P n acc.2 s).1,
                  (findPath cat P n acc.2 s).2)
                else (acc.1, (findPath cat P n acc.2 s).2))
              = (acc.1, (findPath cat P n acc.2 s).2)
            rw [if_neg (fun hh => hh hih.1)]
          rw [heq]
          exact ⟨hq.1, hih.2⟩)
        ([], (obj, none) :: memo) ⟨rfl, hcln1⟩
      have hres : findPath cat P (n + 1) memo obj
          = (((succsOf P obj).foldl (fun acc succ =>
              let r0 := findPath cat P n acc.2 succ
              if r0.1 ≠ [] then (liftPath (formatObj obj) acc.1 r0.1, r0.2)
              else (acc.1, r0.2)) ([], (obj, none) :: memo)).1,
            ((succsOf P obj).foldl (fun acc succ =>
              let r0 := findPath cat P n acc.2 succ
              if r0.1 ≠ [] then (liftPath (formatObj obj) acc.1 r0.1, r0.2)
              else (acc.1, r0.2)) ([], (obj, none) :: memo)).2) := by
        rw [findPath_succ_none cat P n memo obj hl, if_neg (fun hh => hh hdv), hfact]
        show (((succsOf P obj).foldl _ ([], (obj, none) :: memo)).1,
            if ((succsOf P obj).foldl _ ([], (obj, none) :: memo)).1 ≠ []
            then (obj, some ((succsOf P obj).foldl _ ([], (obj, none) :: memo)).1) ::
              ((succsOf P obj).foldl _ ([], (obj, none) :: memo)).2
            else ((succsOf P obj).foldl _ ([], (obj, none) :: memo)).2) = _
        rw [if_neg (fun hh => hh hfold.1)]
      rw [hres]
      exact ⟨hfold.1, hfold.2⟩
    · rw [findPath_succ_grey cat P n memo obj hl]
      exact ⟨rfl, hcln⟩

/-- A member with an empty path map contributes nothing but its memo
update. -/
theorem stepMember_clean (cat : List (String × List OSVEntry)) (P : Pass)
    (fuel : Nat) (st : MemberState) (m : GoObject)
    (hempty : (findPath cat P fuel st.memo m).1 = []) :
    stepMember cat P fuel st m = { st with memo := (findPath cat P fuel st.memo m).2 } := by
  simp only [stepMember]
  rw [if_pos hempty]

/-- Imports without package facts leave the import loop state
untouched. -/
theorem importLoop_no_facts (P : Pass)
    (h : ∀ i ∈ P.imports, alookup P.pkgFacts i.importedPath = none) :
    P.imports.foldl (importStep P) ([], []) = ([], []) :=
  foldl_inv (fun acc => acc = ([], [])) (importStep P) P.imports
    (fun acc i hi hacc => by
      unfold importStep
      rw [h i hi]
      exact hacc) ([], []) rfl

/-- The member loop over members of a clean closed set emits nothing. -/
theorem memberLoop_clean (cat : List (String × List OSVEntry)) (P : Pass)
    (fuel : Nat) (S : List GoObject)
    (hcl : ∀ o ∈ S, ∀ s ∈ succsOf P o, s ∈ S)
    (hnv : ∀ o ∈ S, isDirectlyVulnerable cat o = [] ∧ alookup P.objFacts o = none)
    (hm : ∀ mb ∈ P.refs, mb.1 ∈ S) :
    ∀ (st0 : MemberState),
      (∀ o ∈ S, alookup st0.memo o = none ∨ alookup st0.memo o = some none) →
      (memberLoop cat P fuel st0).diags = st0.diags ∧
      (memberLoop cat P fuel st0).objFactsOut = st0.objFactsOut ∧
      (memberLoop cat P fuel st0).pkgFactPath = st0.pkgFactPath := by
  intro st0 hcln
  have hinv := foldl_inv (fun st : MemberState =>
      st.diags = st0.diags ∧ st.objFactsOut = st0.objFactsOut ∧
      st.pkgFactPath = st0.pkgFactPath ∧
      (∀ o ∈ S, alookup st.memo o = none ∨ alookup st.memo o = some none))
    (fun st mem => stepMember cat P fuel st mem.1) P.refs
    (fun st mb hmb hq => by
      have hclean := findPath_clean cat P S hcl hnv fuel st.memo mb.1 (hm mb hmb) hq.2.2.2
      show (stepMember cat P fuel st mb.1).diags = st0.diags ∧
        (stepMember cat P fuel st mb.1).objFactsOut = st0.objFactsOut ∧
        (stepMember cat P fuel st mb.1).pkgFactPath = st0.pkgFactPath ∧
        (∀ o ∈ S, alookup (stepMember cat P fuel st mb.1).memo o = none ∨
          alookup (stepMember cat P fuel st mb.1).memo o = some none)
      rw [stepMember_clean cat P fuel st mb.1 hclean.1]
      exact ⟨hq.1, hq.2.1, hq.2.2.1, hclean.2⟩)
    st0 ⟨rfl, rfl, rfl, hcln⟩
  exact ⟨hinv.1, hinv.2.1, hinv.2.2.1⟩

/-- Unfolding the run on a loaded, non-empty catalog. -/
theorem runAnalysis_eq (pk : List (String × List OSVEntry)) (P : Pass) (fuel : Nat)
    (hpk : pk.isEmpty = false) :
    runAnalysis ⟨pk, none⟩ P fuel = Except.ok
      ⟨(memberLoop pk P fuel ⟨[], (P.imports.foldl (importStep P) ([], [])).1, [],
          (P.imports.foldl (importStep P) ([], [])).2⟩).diags,
       (memberLoop pk P fuel ⟨[], (P.imports.foldl (importStep P) ([], [])).1, [],
          (P.imports.foldl (importStep P) ([], [])).2⟩).objFactsOut,
       if (memberLoop pk P fuel ⟨[], (P.imports.foldl (importStep P) ([], [])).1, [],
          (P.imports.foldl (importStep P) ([], [])).2⟩).pkgFactPath.isEmpty then none
       else some (memberLoop pk P fuel ⟨[], (P.imports.foldl (importStep P) ([], [])).1, [],
          (P.imports.foldl (importStep P) ([], [])).2⟩).pkgFactPath⟩ := by
  unfold runAnalysis
  show (if pk.isEmpty = true then Except.ok (⟨[], [], none⟩ : RunOutput) else _) = _
  rw [if_neg (by rw [hpk]; exact Bool.false_ne_true)]

/-- C4: findPath terminates on every finite reference graph: its
result is fuel-independent once the fuel exceeds the unvisited-node
count of a successor-closed universe; a node marked grey (entered and
not completed) returns the empty map on revisit; over a reference
cycle among objects none of which is directly vulnerable or carries
an imported fact, findPath returns the empty map for each member; and
a run whose members all lie in such a set, with no import facts,
emits zero diagnostics. -/
theorem c4_cycle_termination :
    (∀ (cat : List (String × List OSVEntry)) (P : Pass) (U : List GoObject)
       (memo : Memo) (obj : GoObject) (fuel₁ fuel₂ : Nat),
       U.Nodup → (∀ o ∈ U, ∀ s ∈ succsOf P o, s ∈ U) → obj ∈ U →
       unvisited U memo < fuel₁ → unvisited U memo < fuel₂ →
       findPath cat P fuel₁ memo obj = findPath cat P fuel₂ memo obj) ∧
    (∀ (cat : List (String × List OSVEntry)) (P : Pass) (n : Nat)
       (memo : Memo) (obj : GoObject),
       alookup memo obj = some none →
       findPath cat P (n + 1) memo obj = ([], memo)) ∧
    (∀ (cat : List (String × List OSVEntry)) (P : Pass) (S : List GoObject)
       (fuel : Nat) (memo : Memo) (obj : GoObject),
       (∀ o ∈ S, ∀ s ∈ succsOf P o, s ∈ S) →
       (∀ o ∈ S, isDirectlyVulnerable cat o = [] ∧ alookup P.objFacts o = none) →
       (∀ o ∈ S, alookup memo o = none ∨ alookup memo o = some none) →
       obj ∈ S →
       (findPath cat P fuel memo obj).1 = []) ∧
    (∀ (pk : List (String × List OSVEntry)) (P : Pass) (fuel : Nat) (S : List GoObject),
       (∀ o ∈ S, ∀ s ∈ succsOf P o, s ∈ S) →
       (∀ o ∈ S, isDirectlyVulnerable pk o = [] ∧ alookup P.objFacts o = none) →
       (∀ mb ∈ P.refs, mb.1 ∈ S) →
       (∀ i ∈ P.imports, alookup P.pkgFacts i.importedPath = none) →
       runDiags ⟨pk, none⟩ P fuel = []) := by
  refine ⟨?_, ?_, ?_, ?_⟩
  · intro cat P U memo obj fuel₁ fuel₂ hU hcl hobj h1 h2
    exact findPath_fuel_stable cat P U hU hcl (unvisited U memo) memo obj fuel₁ fuel₂
      hobj (Nat.le_refl _) h1 h2
  · intro cat P n memo obj hl
    exact findPath_succ_grey cat P n memo obj hl
  · intro cat P S fuel memo obj hcl hnv hcln hobj
    exact (findPath_clean cat P S hcl hnv fuel memo obj hobj hcln).1
  · intro pk P fuel S hcl hnv hm himp
    have himp0 : P.imports.foldl (importStep P) ([], []) = ([], []) :=
      importLoop_no_facts P himp
    by_cases hpk : pk.isEmpty = true
    · have hrun : runAnalysis ⟨pk, none⟩ P fuel = Except.ok ⟨[], [], none⟩ := by
        unfold runAnalysis
        show (if pk.isEmpty = true then Except.ok (⟨[], [], none⟩ : RunOutput) else _) = _
        rw [if_pos hpk]
      unfold runDiags
      rw [hrun]
    · have hloop := memberLoop_clean pk P fuel S hcl hnv hm
        ⟨[], [], [], []⟩ (fun _ _ => Or.inl rfl)
      unfold runDiags
      rw [runAnalysis_eq pk P fuel (by simpa using hpk), himp0]
      exact hloop.1

/-- C4 witness: the two-function cycle `A → B → A` with nothing
vulnerable terminates with a fuel-stable result and zero
diagnostics. -/
theorem c4_witness :
    runDiags ⟨[("p", [entryV])], none⟩ passCyc 9 = [] ∧
    findPath [("p", [entryV])] passCyc 5 [] oA = findPath [("p", [entryV])] passCyc 7 [] oA :=
  ⟨c4_cycle_termination.2.2.2 [("p", [entryV])] passCyc 9 [oA, oB]
      (by decide) (by decide) (by decide) (by decide),
   c4_cycle_termination.1 [("p", [entryV])] passCyc [oA, oB] [] oA 5 7
      (by decide) (by decide) (by decide) (by decide) (by decide)⟩

/-- C1: the top-level member loop of analysis.run iterates the `refs`
map in (randomized) map order without sorting; processing the same
reference graph in two different member orders produces different
diagnostic sets. With order `B, A, V` the cycle partner `B` receives
a diagnostic that order `A, B, V` never emits, because `B` stays
permanently grey in the memo after being revisited inside `A`'s
traversal. -/
theorem c1_member_order_dependent :
    diagB ∈ runDiags catW passBA 10 ∧
    diagB ∉ runDiags catW passAB 10 ∧
    List.Perm passAB.refs passBA.refs := by
  refine ⟨by decide, by decide, by decide⟩

/-- C10: a successfully parsed catalog that maps zero packages makes
the run return success immediately with no diagnostics and no facts,
whatever the pass contains; a catalog load error is returned as the
run's error; a loaded catalog never produces an error. -/
theorem c10_empty_catalog (pk : List (String × List OSVEntry)) (P : Pass) (fuel : Nat) :
    runAnalysis ⟨[], none⟩ P fuel = Except.ok ⟨[], [], none⟩ ∧
    (∀ e, runAnalysis ⟨pk, some e⟩ P fuel = Except.error e) ∧
    (∃ out, runAnalysis ⟨pk, none⟩ P fuel = Except.ok out) := by
  refine ⟨rfl, fun e => rfl, ?_⟩
  by_cases hpk : pk.isEmpty = true
  · refine ⟨⟨[], [], none⟩, ?_⟩
    unfold runAnalysis
    show (if pk.isEmpty = true then Except.ok (⟨[], [], none⟩ : RunOutput) else _) = _
    rw [if_pos hpk]
  · exact ⟨_, runAnalysis_eq pk P fuel (by simpa using hpk)⟩

theorem takeWhile_append_elem {α : Type} (p : α → Bool) (l₁ l₂ : List α) (c : α)
    (h : ∀ x ∈ l₁, p x = true) (hc : p c = false) :
    (l₁ ++ c :: l₂).takeWhile p = l₁ := by
  induction l₁ with
  | nil => simp [List.takeWhile_cons, hc]
  | cons a as ih =>
    rw [List.cons_append, List.takeWhile_cons, h a (by simp),
      ih (fun x hx => h x (by simp [hx]))]
    simp

/-- `strings.Cut` on a category key `id:symbol` recovers the
vulnerability id when the id itself has no colon. -/
theorem goCutBefore_colon (idV sym : String) (hid : ':' ∉ idV.data) :
    goCutBefore (idV ++ ":" ++ sym) ':' = idV := by
  unfold goCutBefore
  have hdata : (idV ++ ":" ++ sym).data = idV.data ++ ':' :: sym.data := by
    rw [String.data_append, String.data_append, List.append_assoc]
    rfl
  rw [hdata, takeWhile_append_elem _ idV.data sym.data ':'
    (fun x hx => by
      simp only [decide_eq_true_eq]
      exact fun hh => hid (hh ▸ hx))
    (by simp)]

theorem alookup_mem {α β : Type} [DecidableEq α] :
    ∀ (m : List (α × β)) (a : α) (b : β), alookup m a = some b → (a, b) ∈ m
  | [], _, _, h => Option.noConfusion h
  | (k, v) :: rest, a, b, h => by
    rw [alookup_cons] at h
    split at h
    · injection h with h
      subst h
      rename_i hk
      subst hk
      exact List.mem_cons_self _ _
    · exact List.mem_cons_of_mem _ (alookup_mem rest a b h)

/-- Go map assignment preserves "all stored paths are non-empty" when
the assigned path is non-empty. -/
theorem pmSet_nonempty (pm : PathMap) (k : String) (v : List String)
    (hpm : ∀ kv ∈ pm, kv.2 ≠ []) (hv : v ≠ []) :
    ∀ kv ∈ pmSet pm k v, kv.2 ≠ [] := by
  intro kv hkv
  unfold pmSet at hkv
  split at hkv
  · obtain ⟨kv0, hkv0, heq⟩ := List.mem_map.mp hkv
    by_cases hk : kv0.1 = k
    · rw [if_pos hk] at heq
      rw [← heq]
      exact hv
    · rw [if_neg hk] at heq
      rw [← heq]
      exact hpm kv0 hkv0
  · rcases List.mem_append.mp hkv with h | h
    · exact hpm kv h
    · rw [List.mem_singleton] at h
      rw [h]
      exact hv

/-- The adoption step writes only non-empty paths. -/
theorem liftPath_nonempty (o : String) (pm src : PathMap)
    (hpm : ∀ kv ∈ pm, kv.2 ≠ []) :
    ∀ kv ∈ liftPath o pm src, kv.2 ≠ [] := by
  unfold liftPath
  refine foldl_inv (fun acc : PathMap => ∀ kv ∈ acc, kv.2 ≠ []) _ src ?_ pm hpm
  intro acc kv0 _ hacc
  apply pmSet_nonempty _ _ _ hacc
  split
  · rename_i hcond
    exact hcond.1
  · exact List.cons_ne_nil _ _

/-- The direct-hit branch writes only non-empty paths. -/
theorem directPaths_nonempty (vulns : List String) (o : String) :
    ∀ kv ∈ directPaths vulns o, kv.2 ≠ [] := by
  unfold directPaths
  refine foldl_inv (fun acc : PathMap => ∀ kv ∈ acc, kv.2 ≠ []) _ vulns ?_ []
    (by intro kv h; cases h)
  intro acc v _ hacc
  exact pmSet_nonempty _ _ _ hacc (List.cons_ne_nil _ _)

/-- The store-if-non-empty exit of findPath preserves both the path
and memo non-emptiness invariants. -/
theorem wrap_nonempty (obj : GoObject) (X : PathMap × Memo)
    (h1 : ∀ kv ∈ X.1, kv.2 ≠ [])
    (h2 : ∀ e ∈ X.2, ∀ pm, e.2 = some pm → ∀ kv ∈ pm, kv.2 ≠ []) :
    (∀ kv ∈ (X.1, if X.1 ≠ [] then (obj, some X.1) :: X.2 else X.2).1, kv.2 ≠ []) ∧
    (∀ e ∈ (X.1, if X.1 ≠ [] then (obj, some X.1) :: X.2 else X.2).2,
      ∀ pm, e.2 = some pm → ∀ kv ∈ pm, kv.2 ≠ []) := by
  refine ⟨h1, ?_⟩
  intro e he pm hpm kv hkv
  revert he
  show e ∈ (if X.1 ≠ [] then (obj, some X.1) :: X.2 else X.2) → _
  split
  · intro he
    rcases List.mem_cons.mp he with rfl | he'
    · injection hpm with hpm
      subst hpm
      exact h1 kv hkv
    · exact h2 e he' pm hpm kv hkv
  · intro he
    exact h2 e he pm hpm kv hkv

/-- Every path stored in a findPath result map is non-empty, given
the same invariant on the incoming memo. -/
theorem findPath_nonempty (cat : List (String × List OSVEntry)) (P : Pass) :
    ∀ (fuel : Nat) (memo : Memo) (obj : GoObject),
      (∀ e ∈ memo, ∀ pm, e.2 = some pm → ∀ kv ∈ pm, kv.2 ≠ []) →
      (∀ kv ∈ (findPath cat P fuel memo obj).1, kv.2 ≠ []) ∧
      (∀ e ∈ (findPath cat P fuel memo obj).2,
        ∀ pm, e.2 = some pm → ∀ kv ∈ pm, kv.2 ≠ []) := by
  intro fuel
  induction fuel with
  | zero => intro memo obj hmemo; exact ⟨(by intro kv h; cases h), hmemo⟩
  | succ n ih =>
    intro memo obj hmemo
    rcases hl : alookup memo obj with _ | op
    · rw [findPath_succ_none cat P n memo obj hl]
      have hmemo1 : ∀ e ∈ ((obj, none) :: memo),
          ∀ pm, e.2 = some pm → ∀ kv ∈ pm, kv.2 ≠ [] := by
        intro e he
        rcases List.mem_cons.mp he with rfl | he'
        · intro pm hpm
          cases hpm
        · exact hmemo e he'
      by_cases hdv : isDirectlyVulnerable cat obj ≠ []
      · rw [if_pos hdv]
        exact wrap_nonempty obj
          (directPaths (isDirectlyVulnerable cat obj) (formatObj obj), (obj, none) :: memo)
          (directPaths_nonempty _ _) hmemo1
      · rw [if_neg hdv]
        cases hff : alookup P.objFacts obj with
        | some fp =>
          exact wrap_nonempty obj
            (liftPath (formatObj obj) [] fp, (obj, none) :: memo)
            (liftPath_nonempty _ _ _ (by intro kv h; cases h)) hmemo1
        | none =>
          have hfold := foldl_inv
            (fun acc : PathMap × Memo => (∀ kv ∈ acc.1, kv.2 ≠ []) ∧
              (∀ e ∈ acc.2, ∀ pm, e.2 = some pm → ∀ kv ∈ pm, kv.2 ≠ []))
            (fun acc succ =>
              let r0 := findPath cat P n acc.2 succ
              if r0.1 ≠ [] then (liftPath (formatObj obj) acc.1 r0.1, r0.2)
              else (acc.1, r0.2))
            (succsOf P obj)
            (fun acc s _ hq => by
              have hih := ih acc.2 s hq.2
              show (∀ kv ∈ (if (findPath cat P n acc.2 s).1 ≠ []
                  then (liftPath (formatObj obj) acc.1 (findPath cat P n acc.2 s).1,
                    (findPath cat P n acc.2 s).2)
                  else (acc.1, (findPath cat P n acc.2 s).2)).1, kv.2 ≠ []) ∧
                (∀ e ∈ (if (findPath cat P n acc.2 s).1 ≠ []
                  then (liftPath (formatObj obj) acc.1 (findPath cat P n acc.2 s).1,
                    (findPath cat P n acc.2 s).2)
                  else (acc.1, (findPath cat P n acc.2 s).2)).2,
                  ∀ pm, e.2 = some pm → ∀ kv ∈ pm, kv.2 ≠ [])
              by_cases hr : (findPath cat P n acc.2 s).1 ≠ []
              · simp only [if_pos hr]
                exact ⟨liftPath_nonempty _ _ _ hq.1, hih.2⟩
              · simp only [if_neg hr]
                exact ⟨hq.1, hih.2⟩)
            ([], (obj, none) :: memo) ⟨(by intro kv h; cases h), hmemo1⟩
          exact wrap_nonempty obj
            ((succsOf P obj).foldl (fun acc succ =>
              let r0 := findPath cat P n acc.2 succ
              if r0.1 ≠ [] then (liftPath (formatObj obj) acc.1 r0.1, r0.2)
              else (acc.1, r0.2)) ([], (obj, none) :: memo))
            hfold.1 hfold.2
    · rcases op with _ | pm
      · rw [findPath_succ_grey cat P n memo obj hl]
        exact ⟨(by intro kv h; cases h), hmemo⟩
      · rw [findPath_succ_hit cat P n memo obj pm hl]
        exact ⟨hmemo (obj, some pm) (alookup_mem memo obj (some pm) hl) pm rfl, hmemo⟩

/-- C2: every path in a member's find-path result is non-empty (so
every (vulnerability, path) pair produces a diagnostic), and for each
pair (`id:symbol`, path) in that result the member loop emits a
diagnostic at the member's position whose category is
`id` `:` `symbol` and whose message is `id` `|` followed by the path
elements joined by tabs. -/
theorem c2_diag_wire_format :
    (∀ (cat : List (String × List OSVEntry)) (P : Pass) (fuel : Nat)
       (memo : Memo) (obj : GoObject),
       (∀ e ∈ memo, ∀ pm, e.2 = some pm → ∀ kv ∈ pm, kv.2 ≠ []) →
       ∀ kv ∈ (findPath cat P fuel memo obj).1, kv.2 ≠ []) ∧
    (∀ (cat : List (String × List OSVEntry)) (P : Pass) (fuel : Nat)
       (st : MemberState) (m : GoObject) (idV sym : String) (p : List String),
       ':' ∉ idV.data →
       (idV ++ ":" ++ sym, p) ∈ (findPath cat P fuel st.memo m).1 →
       p ≠ [] →
       (⟨m.pos, idV ++ ":" ++ sym, idV ++ "|" ++ String.intercalate "\t" p⟩ : Diagnostic)
         ∈ (stepMember cat P fuel st m).diags) := by
  constructor
  · intro cat P fuel memo obj hmemo
    exact (findPath_nonempty cat P fuel memo obj hmemo).1
  intro cat P fuel st m idV sym p hid hp hne
  have hr1 : (findPath cat P fuel st.memo m).1 ≠ [] := List.ne_nil_of_mem hp
  have hmem' : (⟨m.pos, idV ++ ":" ++ sym,
      idV ++ "|" ++ String.intercalate "\t" p⟩ : Diagnostic)
      ∈ (findPath cat P fuel st.memo m).1.filterMap (fun kv =>
        if kv.2 = [] then none
        else some ⟨m.pos, kv.1, goCutBefore kv.1 ':' ++ "|" ++ String.intercalate "\t" kv.2⟩) := by
    refine List.mem_filterMap.mpr ⟨(idV ++ ":" ++ sym, p), hp, ?_⟩
    rw [if_neg hne, goCutBefore_colon idV sym hid]
  simp only [stepMember]
  rw [if_neg hr1]
  by_cases hinit : m.name = "init"
  · rw [if_pos hinit]
    by_cases hexp : m.exported = true
    · rw [if_pos hexp]
      exact List.mem_append_right _ hmem'
    · rw [if_neg hexp]
      exact List.mem_append_right _ hmem'
  · rw [if_neg hinit]
    by_cases hexp : m.exported = true
    · rw [if_pos hexp]
      exact List.mem_append_right _ hmem'
    · rw [if_neg hexp]
      exact List.mem_append_right _ hmem'

/-- C2 witness: the direct hit on `V` emits the expected wire format. -/
theorem c2_witness :
    (⟨oV.pos, "GO-1" ++ ":" ++ "p.V",
      "GO-1" ++ "|" ++ String.intercalate "\t" ["p.V v.go:1:1"]⟩ : Diagnostic)
      ∈ (stepMember [("p", [entryV])] passAB 10 ⟨[], [], [], []⟩ oV).diags :=
  c2_diag_wire_format.2 [("p", [entryV])] passAB 10 ⟨[], [], [], []⟩ oV "GO-1" "p.V"
    ["p.V v.go:1:1"] (by decide) (by decide) (by decide)

/-- C8: an object fact is exported for member `m` exactly when `m`'s
find-path result is non-empty and `m` is exported; the run exports a
package fact exactly when the accumulated package fact path map
(seeded by the import loop and extended by `init` members) is
non-empty. -/
theorem c8_fact_export_policy :
    (∀ (cat : List (String × List OSVEntry)) (P : Pass) (fuel : Nat)
       (st : MemberState) (m : GoObject),
       (stepMember cat P fuel st m).objFactsOut =
         st.objFactsOut ++
           (if (findPath cat P fuel st.memo m).1 ≠ [] ∧ m.exported = true
            then [(m, (findPath cat P fuel st.memo m).1)] else [])) ∧
    (∀ (pk : List (String × List OSVEntry)) (P : Pass) (fuel : Nat) (out : RunOutput),
       pk.isEmpty = false →
       runAnalysis ⟨pk, none⟩ P fuel = Except.ok out →
       (out.packageFact ≠ none ↔
         (memberLoop pk P fuel ⟨[], (P.imports.foldl (importStep P) ([], [])).1, [],
             (P.imports.foldl (importStep P) ([], [])).2⟩).pkgFactPath ≠ [])) := by
  constructor
  · intro cat P fuel st m
    simp only [stepMember]
    by_cases hr : (findPath cat P fuel st.memo m).1 = []
    · rw [if_pos hr, if_neg (fun hh => hh.1 hr)]
      simp
    · rw [if_neg hr]
      by_cases hinit : m.name = "init"
      · rw [if_pos hinit]
        by_cases hexp : m.exported = true
        · rw [if_pos hexp, if_pos ⟨hr, hexp⟩]
        · rw [if_neg hexp, if_neg (fun hh => hexp hh.2)]
          simp
      · rw [if_neg hinit]
        by_cases hexp : m.exported = true
        · rw [if_pos hexp, if_pos ⟨hr, hexp⟩]
        · rw [if_neg hexp, if_neg (fun hh => hexp hh.2)]
          simp
  · intro pk P fuel out hpk hrun
    rw [runAnalysis_eq pk P fuel hpk] at hrun
    injection hrun with hout
    subst hout
    by_cases hc : (memberLoop pk P fuel ⟨[], (P.imports.foldl (importStep P) ([], [])).1, [],
        (P.imports.foldl (importStep P) ([], [])).2⟩).pkgFactPath.isEmpty = true
    · show (if _ = true then (none : Option PathMap) else _) ≠ none ↔ _
      rw [if_pos hc]
      simp [List.isEmpty_iff.mp hc]
    · show (if _ = true then (none : Option PathMap) else _) ≠ none ↔ _
      rw [if_neg hc]
      constructor
      · intro _ hnil
        exact hc (List.isEmpty_iff.mpr hnil)
      · intro _ hnone
        exact Option.noConfusion hnone

/-- C8 witness: on the concrete three-function package, the exported
member `V` gets an object fact, and the run exports no package fact
because the accumulated path map is empty. -/
theorem c8_witness :
    ((stepMember [("p", [entryV])] passAB 10 ⟨[], [], [], []⟩ oV).objFactsOut =
      ([] : List (GoObject × PathMap)) ++
        (if (findPath [("p", [entryV])] passAB 10 [] oV).1 ≠ [] ∧ oV.exported = true
         then [(oV, (findPath [("p", [entryV])] passAB 10 [] oV).1)] else [])) ∧
    ((⟨[⟨"a.go:1:1", "GO-1:p.V", "GO-1|p.A a.go:1:1\tp.V v.go:1:1"⟩,
        ⟨"v.go:1:1", "GO-1:p.V", "GO-1|p.V v.go:1:1"⟩],
       [(oA, [("GO-1:p.V", ["p.A a.go:1:1", "p.V v.go:1:1"])]),
        (oV, [("GO-1:p.V", ["p.V v.go:1:1"])])], none⟩ : RunOutput).packageFact ≠ none ↔
      (memberLoop [("p", [entryV])] passAB 10
        ⟨[], (passAB.imports.foldl (importStep passAB) ([], [])).1, [],
          (passAB.imports.foldl (importStep passAB) ([], [])).2⟩).pkgFactPath ≠ []) :=
  ⟨c8_fact_export_policy.1 [("p", [entryV])] passAB 10 ⟨[], [], [], []⟩ oV,
   c8_fact_export_policy.2 [("p", [entryV])] passAB 10 _ (by decide) (by rfl)⟩

